import Mathlib

/-!
Verification of the honcho-clawd persistence/caching layer and the
context-formatting layer, as a shallow embedding of `src/cache.ts` and
`src/context-format.ts`.

Modelling conventions:
* File contents are Lean `String`s; a missing file is `Option.none`.
* `JSON.parse` / `JSON.stringify` are external library functions; functions
  that call them are parameterised by a parse function
  `String → Option _` (an exception is `none`) and, where serialisation
  matters, a serialiser `_ → String`.
* `Date.now()` and configuration values (TTL seconds, message threshold,
  work-log max entries) are passed as explicit arguments.
* JavaScript `string.split(sep)` with a one-character separator,
  `Array.prototype.slice`, `Array.prototype.join`, `Array.prototype.findIndex`
  and `String.prototype.includes` are modelled by the executable helpers
  `splitP`, `jsSliceList`, `joinSep`, `jsFindIndex` and `hasInfixC` below.
-/

namespace HonchoClawd

/-! ## JavaScript string/array primitives -/

/-- Split a character list at every character satisfying `p`; the exact
semantics of JavaScript `s.split(c)` for a one-character separator
(`splitP p "a\nb"` style inputs keep empty pieces, `splitP p []` is `[[]]`). -/
def splitP (p : Char → Bool) : List Char → List (List Char)
  | [] => [[]]
  | c :: cs =>
    if p c then [] :: splitP p cs
    else
      match splitP p cs with
      | [] => [[c]]
      | g :: gs => (c :: g) :: gs

/-- JavaScript `Array.prototype.join(sep)`. -/
def joinSep (sep : String) : List String → String
  | [] => ""
  | [x] => x
  | x :: xs => x ++ sep ++ joinSep sep xs

/-- Test that `pat` occurs at the start of `l`. -/
def hasPrefixC : List Char → List Char → Bool
  | [], _ => true
  | _ :: _, [] => false
  | p :: ps, c :: cs => p == c && hasPrefixC ps cs

/-- Test that `pat` occurs contiguously somewhere in `l`
(JavaScript `String.prototype.includes`). -/
def hasInfixC (pat : List Char) : List Char → Bool
  | [] => hasPrefixC pat []
  | c :: cs => hasPrefixC pat (c :: cs) || hasInfixC pat cs

/-- JavaScript `s.includes(pat)`. -/
def containsSub (s pat : String) : Bool :=
  hasInfixC pat.data s.data

/-- JavaScript `Array.prototype.findIndex`, with `-1` rendered as `none`. -/
def jsFindIndex (p : α → Bool) : List α → Option Nat
  | [] => none
  | a :: l => if p a then some 0 else (jsFindIndex p l).map (fun n => n + 1)

/-- Clamp a JavaScript slice index to `[0, len]`:
negative indices count from the end. -/
def jsIdx (len : Nat) (i : Int) : Nat :=
  if i < 0 then ((len : Int) + i).toNat else min i.toNat len

/-- JavaScript `Array.prototype.slice(start, stop)` (also used for
`String.prototype.slice` on the character list). -/
def jsSliceList (xs : List α) (start stop : Int) : List α :=
  (xs.take (jsIdx xs.length stop)).drop (jsIdx xs.length start)

/-- JavaScript `xs.slice(start)` (one-argument form). -/
def jsSliceFrom (xs : List α) (start : Int) : List α :=
  jsSliceList xs start (xs.length : Int)

/-- JavaScript `s.slice(0, n)` for a non-negative literal `n`. -/
def takeStr (n : Nat) (s : String) : String :=
  String.mk (s.data.take n)

/-- JavaScript `line.trim()` used as a boolean: truthy exactly when the
line has at least one non-whitespace character. -/
def lineNonblank (l : String) : Bool :=
  l.data.any (fun c => !c.isWhitespace)

/-- JavaScript `content.split("\n")` as a list of `String`s. -/
def strLines (content : String) : List String :=
  (splitP (fun c => c == '\n') content.data).map (fun l => String.mk l)

/-! ## Token estimation (`context-format.ts` lines 77-88) -/

/-- Model of `estimateTokens(text)`: `Math.ceil(text.length / 4)`. -/
def estimateTokens (text : String) : Nat :=
  (text.length + 3) / 4

/-- Model of `truncateToTokens(text, maxTokens)`: converts the token budget back to a
character count and slices, appending `"..."` if truncated. -/
def truncateToTokens (text : String) (maxTokens : Nat) : String :=
  let maxChars := maxTokens * 4
  if text.length ≤ maxChars then text
  else String.mk (jsSliceList text.data 0 ((maxChars : Int) - 3)) ++ "..."

/-! ## Deduplication utility (`context-format.ts` lines 609-632) -/

/-- JavaScript `f.toLowerCase()` (ASCII; exotic case mappings are out of scope). -/
def jsToLower (s : String) : String :=
  String.mk (s.data.map (fun c => c.toLower))

/-- The keywords of one fact:
`f.toLowerCase().split(/\s+/).filter((w) => w.length > 3)`.
(Splitting at every whitespace character instead of at runs only differs by
empty pieces, which the length filter removes.) -/
def factKeywords (f : String) : List String :=
  ((splitP (fun c => c.isWhitespace) (jsToLower f).data).map
      (fun w => String.mk w)).filter (fun w => w.length > 3)

/-- The loop of `deduplicateFacts`: `seen` is the running keyword set
(a list queried only through membership).  The JavaScript comparison
`overlap / Math.max(fact.keywords.length, 1) < 0.5` is the exact rational
comparison `2 * overlap < max len 1` at these (tiny) magnitudes. -/
def dedupGo : List (String × List String) → List String → List String
  | [], _ => []
  | (orig, kws) :: rest, seen =>
    let overlap := (kws.filter (fun k => seen.contains k)).length
    if 2 * overlap < max kws.length 1 then
      orig :: dedupGo rest (seen ++ kws)
    else
      dedupGo rest seen

/-- Model of `deduplicateFacts(facts)` from `context-format.ts`. -/
def deduplicateFacts (facts : List String) : List String :=
  if facts.length ≤ 1 then facts
  else dedupGo (facts.map (fun f => (f, factKeywords f))) []

/-- The same loop written with the arithmetic used by the specification:
`overlapRatio = overlap / max(keyword count, 1)` as a rational number,
kept iff `overlapRatio < 0.5`. -/
def dedupSpecGo : List (String × List String) → List String → List String
  | [], _ => []
  | (orig, kws) :: rest, seen =>
    let overlap := (kws.filter (fun k => seen.contains k)).length
    if (overlap : ℚ) / ((max kws.length 1 : Nat) : ℚ) < 1 / 2 then
      orig :: dedupSpecGo rest (seen ++ kws)
    else
      dedupSpecGo rest seen

/-- The deduplication algorithm as the specification words it (§4.7). -/
def dedupSpec (facts : List String) : List String :=
  if facts.length ≤ 1 then facts
  else dedupSpecGo (facts.map (fun f => (f, factKeywords f))) []

/-! ## Context cache (`cache.ts` lines 101-199) -/

/-- The `ContextCache` document.  A cached section is its `data` together
with its `fetchedAt` timestamp (milliseconds); timestamps and counters are
integers (JavaScript numbers). -/
structure ContextCache (α : Type) where
  userContext : Option (α × Int) := none
  clawdContext : Option (α × Int) := none
  summaries : Option (α × Int) := none
  messageCount : Option Int := none
  lastRefreshMessageCount : Option Int := none
deriving DecidableEq, Repr

/-- Model of `getContextTTL()`: `(config.ttlSeconds ?? 300) * 1000` with the configured
seconds passed in explicitly. -/
def getContextTTL (ttlSeconds : Int) : Int :=
  ttlSeconds * 1000

/-- Model of `getCachedUserContext()` against an explicit `Date.now()` and
configured TTL seconds. -/
def getCachedUserContext (now ttlSeconds : Int) (cache : ContextCache α) :
    Option α :=
  match cache.userContext with
  | some (data, fetchedAt) =>
    if now - fetchedAt < getContextTTL ttlSeconds then some data else none
  | none => none

/-- Model of `setCachedUserContext(data)`: stores with `fetchedAt = now`. -/
def setCachedUserContext (now : Int) (data : α) (cache : ContextCache α) :
    ContextCache α :=
  { cache with userContext := some (data, now) }

/-- Model of `isContextCacheStale()`. -/
def isContextCacheStale (now ttlSeconds : Int) (cache : ContextCache α) :
    Bool :=
  match cache.userContext with
  | none => true
  | some (_, fetchedAt) => decide (now - fetchedAt ≥ getContextTTL ttlSeconds)

/-- Model of `incrementMessageCount()`: `cache.messageCount = (cache.messageCount || 0) + 1`,
returning the updated cache and the new count. -/
def incrementMessageCount (cache : ContextCache α) : ContextCache α × Int :=
  let n := cache.messageCount.getD 0 + 1
  ({ cache with messageCount := some n }, n)

/-- Model of `shouldRefreshKnowledgeGraph()` with the configured threshold
(`config.messageThreshold ?? 50`) passed in explicitly. -/
def shouldRefreshKnowledgeGraph (threshold : Int) (cache : ContextCache α) :
    Bool :=
  let currentCount := cache.messageCount.getD 0
  let lastRefresh := cache.lastRefreshMessageCount.getD 0
  decide (currentCount - lastRefresh ≥ threshold)

/-- Model of `markKnowledgeGraphRefreshed()`. -/
def markKnowledgeGraphRefreshed (cache : ContextCache α) : ContextCache α :=
  { cache with lastRefreshMessageCount := some (cache.messageCount.getD 0) }

/-- Model of `resetMessageCount()`: zeroes both counters. -/
def resetMessageCount (cache : ContextCache α) : ContextCache α :=
  { cache with messageCount := some 0, lastRefreshMessageCount := some 0 }

/-- Apply `k` sequential calls to `incrementMessageCount`, keeping only the cache. -/
def applyIncrements : Nat → ContextCache α → ContextCache α
  | 0, cache => cache
  | k + 1, cache => applyIncrements k (incrementMessageCount cache).1

/-! ## Persistent key-value store (`cache.ts` lines 23-45 and 120-135) -/

/-- The `IdCache` document. -/
structure IdCache where
  workspace : Option (String × String) := none
  peers : Option (List (String × String)) := none
  sessions : Option (List (String × String × String × String)) := none
  claudeInstanceId : Option String := none
deriving DecidableEq, Repr

/-- Model of `loadIdCache()`: a missing file or a failing `JSON.parse` yields the
empty document.  `parse` is `JSON.parse` restricted to this schema,
`none` standing for a thrown exception. -/
def loadIdCache (parse : String → Option IdCache) (file : Option String) :
    IdCache :=
  match file with
  | none => {}
  | some content =>
    match parse content with
    | some cache => cache
    | none => {}

/-- Model of `loadContextCache()`: same contract as `loadIdCache`. -/
def loadContextCache (parse : String → Option (ContextCache α))
    (file : Option String) : ContextCache α :=
  match file with
  | none => {}
  | some content =>
    match parse content with
    | some cache => cache
    | none => {}

/-! ## Append-only message queue (`cache.ts` lines 205-275) -/

/-- One queued message (`QueuedMessage` in `cache.ts`). -/
structure QueuedMessage where
  content : String
  peerId : String
  cwd : String
  timestamp : String
  uploaded : Bool := false
  instanceId : Option String := none
deriving DecidableEq, Repr

/-- JavaScript `content.split("\n").filter((line) => line.trim())` — the non-blank
lines of a queue file. -/
def splitLines (content : String) : List String :=
  (strLines content).filter lineNonblank

/-- JavaScript `lines.map((line) => JSON.parse(line))`: the first parse failure throws,
aborting the whole mapping (`none`). -/
def parseAll (p : String → Option QueuedMessage) :
    List String → Option (List QueuedMessage)
  | [] => some []
  | l :: ls =>
    match p l, parseAll p ls with
    | some m, some ms => some (m :: ms)
    | _, _ => none

/-- Model of `getQueuedMessages(forCwd?)`.  `p` is `JSON.parse` restricted to queue
lines; `file` is the queue file (`none` when it does not exist).  The
`try`/`catch` around the whole body turns any parse failure into `[]`. -/
def getQueuedMessages (p : String → Option QueuedMessage)
    (file : Option String) (forCwd : Option String) : List QueuedMessage :=
  match file with
  | none => []
  | some content =>
    match parseAll p (splitLines content) with
    | none => []
    | some messages =>
      let pending := messages.filter (fun m => !m.uploaded)
      match forCwd with
      | some d => pending.filter (fun m => m.cwd == d)
      | none => pending

/-- Model of `queueMessage` restricted to what it does to the queue file: append
one serialised line.  `ser` is `JSON.stringify`. -/
def queueMessage (ser : QueuedMessage → String) (content : String)
    (m : QueuedMessage) : String :=
  content ++ (ser m ++ "\n")

/-- Sequentially enqueue `msgs` starting from file content `content`. -/
def enqueueAll (ser : QueuedMessage → String) (content : String)
    (msgs : List QueuedMessage) : String :=
  msgs.foldl (queueMessage ser) content

/-- Model of `markMessagesUploaded(forCwd?)` as a file transformer.  Without a
directory it clears the queue (`clearMessageQueue` writes `""`, creating
the file).  With a directory it keeps a line iff it parses and its `cwd`
differs (the per-line `catch` returns `false`), then rewrites the file as
`remaining.join("\n") + (remaining.length ? "\n" : "")`. -/
def markMessagesUploaded (p : String → Option QueuedMessage)
    (file : Option String) (forCwd : Option String) : Option String :=
  match forCwd with
  | none => some ""
  | some d =>
    match file with
    | none => none
    | some content =>
      let remaining := (splitLines content).filter (fun line =>
        match p line with
        | some msg => !(msg.cwd == d)
        | none => false)
      some (joinSep "\n" remaining ++ if remaining.length ≠ 0 then "\n" else "")

/-! ## Local work-log (`cache.ts` lines 302-324) -/

/-- The seed text written when the work-log file is empty or missing. -/
def clawdSeed : String :=
  "# CLAWD Work Context\n\nAuto-generated log of CLAWD\x27s recent work.\n\n## Recent Activity\n"

/-- The work-log section header searched for by literal substring match. -/
def recentActivityHeader : String :=
  "## Recent Activity"

/-- Model of `appendClawdWork(workDescription)` as a text transformer: `maxEntries`
is the configured `getLocalContextConfig().maxEntries` (a JavaScript
number, so an `Int`), `ts` the `new Date().toISOString()` timestamp and
`existing0` the current file text (`""` when missing/unreadable). -/
def appendClawdWork (maxEntries : Int) (ts desc existing0 : String) : String :=
  let entry := "\n- [" ++ ts ++ "] " ++ desc
  let existing := if existing0 = "" then clawdSeed else existing0
  let lines := strLines existing
  let trimmed :=
    match jsFindIndex (fun l => containsSub l recentActivityHeader) lines with
    | some activityStart =>
      let header := lines.take (activityStart + 1)
      let activities := (lines.drop (activityStart + 1)).filter lineNonblank
      let recentActivities := jsSliceFrom activities (-(maxEntries - 1))
      joinSep "\n" (header ++ recentActivities)
    | none => existing
  trimmed ++ entry

/-- Observer: the non-blank lines below the first line containing the
recognised header (the same location logic `appendClawdWork` uses). -/
def activityEntries (text : String) : List String :=
  let lines := strLines text
  match jsFindIndex (fun l => containsSub l recentActivityHeader) lines with
  | some activityStart => (lines.drop (activityStart + 1)).filter lineNonblank
  | none => []

/-! ## Context formatter types (`context-format.ts` lines 12-68)

TypeScript optional arrays are modelled as plain lists (both `undefined`
and `[]` are falsy under the `?.length` guards the code uses), and
optional strings read only through truthiness guards are modelled as
`String` with `""` for `undefined`. -/

inductive ContextTier where
  | essential
  | extended
  | deep
deriving DecidableEq, Repr

inductive Confidence where
  | high
  | medium
  | low
deriving DecidableEq, Repr

structure ContextConfig where
  tier : ContextTier
  maxTokens : Option Nat := none
  includeDialectic : Bool := false
  compressedFormat : Bool := false
deriving DecidableEq, Repr

structure Fact where
  content : String
  source : Option String := none
deriving DecidableEq, Repr

structure Insight where
  conclusion : String
  premises : List String := []
deriving DecidableEq, Repr

structure UserContext where
  peerCard : List String := []
  explicit : List Fact := []
  deductive : List Insight := []
deriving DecidableEq, Repr

structure SessionContext where
  shortSummary : String := ""
  longSummary : String := ""
deriving DecidableEq, Repr

structure GitContext where
  branch : String := ""
  commit : String := ""
  isDirty : Bool := false
  dirtyFiles : List String := []
deriving DecidableEq, Repr

structure FeatureContext where
  type : String
  description : String
  keywords : List String := []
  areas : List String := []
  confidence : Confidence
deriving DecidableEq, Repr

structure UserSide where
  name : String
  context : UserContext := {}
  dialectic : String := ""
deriving DecidableEq, Repr

structure AISide where
  name : String
  context : UserContext := {}
  dialectic : String := ""
  localWork : String := ""
deriving DecidableEq, Repr

structure SessionSide where
  name : String
  workspace : String
  cwd : String
  context : SessionContext := {}
deriving DecidableEq, Repr

structure FullContext where
  user : UserSide
  ai : AISide
  session : SessionSide
  git : Option GitContext := none
  feature : Option FeatureContext := none
  changes : List String := []
deriving DecidableEq, Repr

/-- Model of `TIER_BUDGETS` (`context-format.ts` lines 94-116); field names follow
the nested object keys. -/
structure TierBudget where
  total : Nat
  userFacts : Nat
  userInsights : Nat
  userProfile : Nat
  aiFacts : Nat
  aiWork : Nat
  sessionSummary : Nat
  header : Nat
deriving DecidableEq, Repr

def TIER_BUDGETS : ContextTier → TierBudget
  | .essential => ⟨300, 3, 2, 50, 3, 100, 50, 80⟩
  | .extended => ⟨800, 8, 5, 100, 8, 200, 150, 100⟩
  | .deep => ⟨2000, 15, 10, 150, 15, 400, 400, 150⟩

/-! ## Compressed format builders (`context-format.ts` lines 125-220) -/

/-- Model of `buildCompactHeader(ctx)`. -/
def buildCompactHeader (ctx : FullContext) : String :=
  let parts :=
    ["user=" ++ ctx.user.name, "ai=" ++ ctx.ai.name,
     "ws=" ++ ctx.session.workspace, "session=" ++ ctx.session.name]
    ++ (match ctx.git with
        | some g =>
          (if g.branch ≠ "" then ["branch=" ++ g.branch] else [])
          ++ (if g.commit ≠ "" then ["head=" ++ takeStr 7 g.commit] else [])
          ++ (if g.isDirty then
                ["dirty=" ++ toString g.dirtyFiles.length] else [])
        | none => [])
  joinSep " | " parts

/-- Model of `buildCompactUserFacts(context, maxFacts, maxInsights)`. -/
def buildCompactUserFacts (context : UserContext)
    (maxFacts maxInsights : Nat) : List String :=
  (if context.explicit.length ≠ 0 then
    (let facts :=
      joinSep "; " ((context.explicit.take maxFacts).map (fun e => e.content))
     if facts ≠ "" then ["facts: " ++ facts] else [])
   else [])
  ++ (if context.deductive.length ≠ 0 then
    (let insights :=
      joinSep "; "
        ((context.deductive.take maxInsights).map (fun d => d.conclusion))
     if insights ≠ "" then ["insights: " ++ insights] else [])
   else [])
  ++ (if context.peerCard.length ≠ 0 then
    (let profile := joinSep "; " (context.peerCard.take 3)
     if profile ≠ "" then ["profile: " ++ profile] else [])
   else [])

/-- Model of `buildCompactAIWork(context, localWork, maxFacts, maxWorkChars)`. -/
def buildCompactAIWork (context : UserContext) (localWork : String)
    (maxFacts maxWorkChars : Nat) : List String :=
  (if context.explicit.length ≠ 0 then
    (let work :=
      joinSep "; " ((context.explicit.take maxFacts).map (fun e => e.content))
     if work ≠ "" then ["recent: " ++ work] else [])
   else [])
  ++ (if localWork ≠ "" then ["local: " ++ takeStr maxWorkChars localWork]
      else [])

/-- Model of `buildCompactFeature(feature)`. -/
def buildCompactFeature (feature : Option FeatureContext) : String :=
  match feature with
  | none => ""
  | some f =>
    if f.confidence = .low then ""
    else
      let parts :=
        [f.type ++ ": " ++ f.description]
        ++ (if f.keywords.length ≠ 0 then
              ["keywords=[" ++ joinSep "," (f.keywords.take 5) ++ "]"]
            else [])
        ++ (if f.areas.length ≠ 0 then
              ["areas=[" ++ joinSep "," (f.areas.take 3) ++ "]"]
            else [])
      joinSep " " parts

/-! ## Verbose format builders (`context-format.ts` lines 229-348) -/

/-- Model of `buildVerboseHeader(ctx)`. -/
def buildVerboseHeader (ctx : FullContext) : List String :=
  ["## Session Context", "- User: " ++ ctx.user.name,
   "- AI: " ++ ctx.ai.name, "- Workspace: " ++ ctx.session.workspace,
   "- Session: " ++ ctx.session.name, "- Directory: " ++ ctx.session.cwd]
  ++ (match ctx.git with
      | some g =>
        if g.branch ≠ "" then
          ["- Branch: " ++ g.branch]
          ++ (if g.commit ≠ "" then ["- HEAD: " ++ g.commit] else [])
          ++ (if g.isDirty then
                ["- Uncommitted: " ++ toString g.dirtyFiles.length ++ " files"]
              else [])
        else []
      | none => [])

/-- Model of `buildVerboseUserContext(name, context, dialectic, maxFacts, maxInsights)`. -/
def buildVerboseUserContext (name : String) (context : UserContext)
    (dialectic : String) (maxFacts maxInsights : Nat) : List String :=
  (if context.peerCard.length ≠ 0 then
     ("## " ++ name ++ "\x27s Profile")
       :: context.peerCard.map (fun c => "- " ++ c)
   else [])
  ++ (if context.explicit.length ≠ 0 then
        ["## What I Know About " ++ name, "### Facts"]
        ++ (context.explicit.take maxFacts).map (fun e => "- " ++ e.content)
      else [])
  ++ (if context.deductive.length ≠ 0 then
        "### Insights"
          :: (context.deductive.take maxInsights).map (fun d =>
            "- " ++ d.conclusion
              ++ (if d.premises.length ≠ 0 then
                    " (from: " ++ joinSep ", " d.premises ++ ")"
                  else ""))
      else [])
  ++ (if dialectic ≠ "" then ["## AI Summary of " ++ name, dialectic] else [])

/-- Model of `buildVerboseAIContext(name, context, dialectic, localWork, maxFacts, maxWorkChars)`. -/
def buildVerboseAIContext (name : String) (context : UserContext)
    (dialectic localWork : String) (maxFacts maxWorkChars : Nat) :
    List String :=
  (if localWork ≠ "" then
     ["## " ++ name ++ "\x27s Local Context", takeStr maxWorkChars localWork]
   else [])
  ++ (if context.explicit.length ≠ 0 then
        ("## " ++ name ++ "\x27s Work History")
          :: (context.explicit.take maxFacts).map (fun e => "- " ++ e.content)
      else [])
  ++ (if dialectic ≠ "" then ["## AI Self-Reflection", dialectic] else [])

/-- Model of `buildVerboseSessionSummary(session)`. -/
def buildVerboseSessionSummary (session : SessionContext) : List String :=
  (if session.shortSummary ≠ "" then
     ["## Recent Session Summary", session.shortSummary]
   else [])
  ++ (if session.longSummary ≠ "" then
        ["## Extended History", session.longSummary]
      else [])

/-! ## Main formatters (`context-format.ts` lines 357-486) -/

/-- The dialectic block of the compressed format (`context-format.ts`
lines 402-411): emitted only at the deep tier and only when
`includeDialectic` is set. -/
def compressedDialecticBlock (ctx : FullContext) (config : ContextConfig) :
    List String :=
  if config.tier = ContextTier.deep ∧ config.includeDialectic = true then
    (if ctx.user.dialectic ≠ "" then
       ["[" ++ ctx.user.name ++ "/ai-understanding]", ctx.user.dialectic]
     else [])
    ++ (if ctx.ai.dialectic ≠ "" then
          ["[" ++ ctx.ai.name ++ "/self-reflection]", ctx.ai.dialectic]
        else [])
  else []

/-- The `sections` array built by `formatCompressedContext`. -/
def compressedSections (ctx : FullContext) (config : ContextConfig) :
    List String :=
  let budget := TIER_BUDGETS config.tier
  ["[honcho-memory]", buildCompactHeader ctx]
  ++ (match ctx.feature with
      | some _ =>
        (let featureLine := buildCompactFeature ctx.feature
         if featureLine ≠ "" then ["feature: " ++ featureLine] else [])
      | none => [])
  ++ (if ctx.changes.length ≠ 0 then
        ["changes: " ++ joinSep "; " (ctx.changes.take 3)]
      else [])
  ++ ["[" ++ ctx.user.name ++ "]"]
  ++ buildCompactUserFacts ctx.user.context budget.userFacts budget.userInsights
  ++ ["[" ++ ctx.ai.name ++ "]"]
  ++ buildCompactAIWork ctx.ai.context ctx.ai.localWork budget.aiFacts
      budget.aiWork
  ++ (if config.tier ≠ ContextTier.essential
        ∧ ctx.session.context.shortSummary ≠ "" then
        ["[session]",
         "summary: "
           ++ truncateToTokens ctx.session.context.shortSummary
               budget.sessionSummary]
      else [])
  ++ compressedDialecticBlock ctx config
  ++ ["[end-memory]"]

/-- Model of `formatCompressedContext(ctx, config)`. -/
def formatCompressedContext (ctx : FullContext) (config : ContextConfig) :
    String :=
  joinSep "\n" (compressedSections ctx config)

def confidenceStr : Confidence → String
  | .high => "high"
  | .medium => "medium"
  | .low => "low"

/-- The `sections` array built by `formatVerboseContext`. -/
def verboseSections (ctx : FullContext) (config : ContextConfig) :
    List String :=
  let budget := TIER_BUDGETS config.tier
  buildVerboseHeader ctx
  ++ (match ctx.feature with
      | some f =>
        if f.confidence ≠ .low then
          ["## Inferred Feature Context", "- Type: " ++ f.type,
           "- Description: " ++ f.description]
          ++ (if f.keywords.length ≠ 0 then
                ["- Keywords: " ++ joinSep ", " f.keywords]
              else [])
          ++ (if f.areas.length ≠ 0 then
                ["- Areas: " ++ joinSep ", " f.areas]
              else [])
          ++ ["- Confidence: " ++ confidenceStr f.confidence]
        else []
      | none => [])
  ++ (if ctx.changes.length ≠ 0 then
        "## Git Activity Since Last Session"
          :: ctx.changes.map (fun c => "- " ++ c)
      else [])
  ++ buildVerboseUserContext ctx.user.name ctx.user.context
      (if config.includeDialectic then ctx.user.dialectic else "")
      budget.userFacts budget.userInsights
  ++ buildVerboseAIContext ctx.ai.name ctx.ai.context
      (if config.includeDialectic then ctx.ai.dialectic else "")
      ctx.ai.localWork budget.aiFacts budget.aiWork
  ++ (if config.tier ≠ ContextTier.essential then
        buildVerboseSessionSummary ctx.session.context
      else [])

/-- Model of `formatVerboseContext(ctx, config)`. -/
def formatVerboseContext (ctx : FullContext) (config : ContextConfig) :
    String :=
  joinSep "\n" (verboseSections ctx config)

/-- Model of `formatContext(ctx, config)`. -/
def formatContext (ctx : FullContext) (config : ContextConfig) : String :=
  if config.compressedFormat then formatCompressedContext ctx config
  else formatVerboseContext ctx config

/-! ## Auxiliary notions used in statements -/

/-- Predicate: `s` contains no newline character (a `JSON.stringify` output line, or a
single-line timestamp/description). -/
def noNewline (s : String) : Bool :=
  s.data.all (fun c => c != '\n')

/-- A sequence of newline-terminated lines, the shape of a queue file in
which every line was written by `queueMessage`. -/
def termJoinNl : List String → String
  | [] => ""
  | l :: ls => l ++ "\n" ++ termJoinNl ls

/-! ## Concrete instances for witnesses and counterexamples -/

/-- A `FullContext` whose only optional content is a user dialectic. -/
def ctx0 : FullContext :=
  { user := { name := "u", dialectic := "DLG" },
    ai := { name := "a" },
    session := { name := "s", workspace := "w", cwd := "/c" } }

def cfgEss : ContextConfig :=
  { tier := ContextTier.essential, includeDialectic := true }

def cfgDeep : ContextConfig :=
  { tier := ContextTier.deep, includeDialectic := true }

/-- A pending queue message for cwd `/b`. -/
def msgB : QueuedMessage :=
  { content := "hi", peerId := "p", cwd := "/b", timestamp := "t" }

/-- A toy `JSON.parse` that accepts exactly the line `GOOD`. -/
def pToy : String → Option QueuedMessage :=
  fun l => if l = "GOOD" then some msgB else none

def mA1 : QueuedMessage := { content := "a1", peerId := "p", cwd := "/a", timestamp := "t1" }
def mA2 : QueuedMessage := { content := "a2", peerId := "p", cwd := "/a", timestamp := "t2" }
def mA3 : QueuedMessage := { content := "a3", peerId := "p", cwd := "/a", timestamp := "t3" }
def mB1 : QueuedMessage := { content := "b1", peerId := "p", cwd := "/b", timestamp := "t4" }
def mB2 : QueuedMessage := { content := "b2", peerId := "p", cwd := "/b", timestamp := "t5" }

/-- Three messages for `/a` followed by two for `/b`. -/
def msgsC : List QueuedMessage := [mA1, mA2, mA3, mB1, mB2]

/-- A toy serialiser for the five concrete messages. -/
def serC : QueuedMessage → String :=
  fun m => "msg-" ++ m.content

/-- The inverse of `serC` on the five concrete messages. -/
def pC : String → Option QueuedMessage :=
  fun l =>
    if l = "msg-a1" then some mA1
    else if l = "msg-a2" then some mA2
    else if l = "msg-a3" then some mA3
    else if l = "msg-b1" then some mB1
    else if l = "msg-b2" then some mB2
    else none

/-- A work-log text with the recognised header and two prior entries. -/
def workLogEx : String :=
  "## Recent Activity\n- [t1] one\n- [t2] two"

/-- A context cache holding one user-context section fetched at time 0. -/
def cacheW : ContextCache Nat :=
  { userContext := some (7, 0) }

/-! ## Lemmas about the string primitives -/

theorem strExt {s t : String} (h : s.data = t.data) : s = t := by
  cases s; cases t; exact congrArg String.mk h

theorem str_append_data (s t : String) : (s ++ t).data = s.data ++ t.data :=
  String.data_append s t

theorem str_append_empty (s : String) : s ++ "" = s := by
  apply strExt; simp [str_append_data]

theorem str_empty_append (s : String) : "" ++ s = s := by
  apply strExt; simp [str_append_data]

theorem str_append_assoc (a b c : String) : a ++ b ++ c = a ++ (b ++ c) := by
  apply strExt; simp [str_append_data]

theorem noNewline_append (a b : String) :
    noNewline (a ++ b) = (noNewline a && noNewline b) := by
  simp [noNewline, str_append_data, List.all_append]

theorem splitP_ne_nil (p : Char → Bool) (l : List Char) : splitP p l ≠ [] := by
  induction l with
  | nil => simp [splitP]
  | cons c cs ih =>
    by_cases hc : p c = true <;>
      rcases h : splitP p cs with _ | ⟨g, gs⟩ <;>
      simp [splitP, hc, h]

theorem mem_splitP_noSep (p : Char → Bool) (l : List Char) :
    ∀ g ∈ splitP p l, ∀ c ∈ g, p c = false := by
  induction l with
  | nil =>
    intro g hg c hc
    simp only [splitP, List.mem_singleton] at hg
    subst hg
    simp at hc
  | cons x cs ih =>
    intro g hg c hc
    by_cases hx : p x = true
    · rw [splitP, if_pos hx] at hg
      rcases List.mem_cons.mp hg with rfl | hg
      · simp at hc
      · exact ih g hg c hc
    · rw [splitP, if_neg hx] at hg
      cases h : splitP p cs with
      | nil => exact absurd h (splitP_ne_nil p cs)
      | cons g0 gs =>
        rw [h] at hg
        rcases List.mem_cons.mp hg with rfl | hg
        · rcases List.mem_cons.mp hc with rfl | hc
          · simpa using hx
          · exact ih g0 (by rw [h]; exact List.mem_cons_self g0 gs) c hc
        · exact ih g (by rw [h]; exact List.mem_cons_of_mem g0 hg) c hc

theorem splitP_no_sep (p : Char → Bool) (l : List Char)
    (h : ∀ c ∈ l, p c = false) : splitP p l = [l] := by
  induction l with
  | nil => rfl
  | cons c cs ih =>
    have hc : p c = false := h c (List.mem_cons_self c cs)
    rw [splitP, if_neg (by simp [hc]),
      ih (fun x hx => h x (List.mem_cons_of_mem c hx))]

theorem splitP_append_sep (p : Char → Bool) {c : Char} (hc : p c = true)
    (a b : List Char) : splitP p (a ++ c :: b) = splitP p a ++ splitP p b := by
  induction a with
  | nil => simp [splitP, hc]
  | cons x a ih =>
    by_cases hx : p x = true
    · simp [splitP, hx, ih]
    · cases h : splitP p a with
      | nil => exact absurd h (splitP_ne_nil p a)
      | cons g gs =>
        rw [List.cons_append, splitP, if_neg hx, ih, h, splitP, if_neg hx, h]
        simp

theorem strLines_append_nl (a b : String) :
    strLines (a ++ "\n" ++ b) = strLines a ++ strLines b := by
  unfold strLines
  have hdata : (a ++ "\n" ++ b).data = a.data ++ '\n' :: b.data := by
    simp [str_append_data]
  rw [hdata, splitP_append_sep _ (by simp), List.map_append]

theorem strLines_noNl (s : String) (h : noNewline s = true) :
    strLines s = [s] := by
  unfold strLines
  rw [splitP_no_sep]
  · simp
  · intro c hc
    have hcn := (List.all_eq_true.mp h) c hc
    simpa using hcn

theorem mem_strLines_noNewline (s : String) :
    ∀ l ∈ strLines s, noNewline l = true := by
  intro l hl
  rcases List.mem_map.mp hl with ⟨g, hg, rfl⟩
  have hns := mem_splitP_noSep _ _ g hg
  rw [noNewline, List.all_eq_true]
  intro c hc
  have := hns c hc
  simpa using this

theorem splitLines_termJoin (ls : List String)
    (h : ∀ l ∈ ls, noNewline l = true ∧ lineNonblank l = true) :
    splitLines (termJoinNl ls) = ls := by
  induction ls with
  | nil => simp [termJoinNl, splitLines, strLines, splitP, lineNonblank]
  | cons l ls ih =>
    have hl := h l (List.mem_cons_self l ls)
    rw [termJoinNl, splitLines, strLines_append_nl,
      strLines_noNl l hl.1, List.filter_append]
    have hkeep : List.filter lineNonblank [l] = [l] := by
      simp [hl.2]
    rw [hkeep]
    have := ih (fun x hx => h x (List.mem_cons_of_mem l hx))
    rw [splitLines] at this
    rw [this]
    simp

theorem joinSep_if_eq_termJoin (ls : List String) :
    (joinSep "\n" ls ++ if ls.length ≠ 0 then "\n" else "") = termJoinNl ls := by
  induction ls with
  | nil => simp [joinSep, termJoinNl, str_append_empty]
  | cons x ls ih =>
    cases ls with
    | nil => simp [joinSep, termJoinNl, str_append_empty, str_append_assoc]
    | cons y tl =>
      have h1 : ((y :: tl).length ≠ 0) := by simp
      have h2 : ((x :: y :: tl).length ≠ 0) := by simp
      rw [if_pos h1] at ih
      rw [if_pos h2]
      show (x ++ "\n" ++ joinSep "\n" (y :: tl)) ++ "\n"
        = x ++ "\n" ++ termJoinNl (y :: tl)
      rw [← ih, str_append_assoc (x ++ "\n")]

theorem mem_splitLines (content : String) :
    ∀ l ∈ splitLines content, noNewline l = true ∧ lineNonblank l = true := by
  intro l hl
  rw [splitLines, List.mem_filter] at hl
  exact ⟨mem_strLines_noNewline content l hl.1, hl.2⟩

/-! ## Lemmas about the message queue -/

theorem parseAll_map_ser (p : String → Option QueuedMessage)
    (ser : QueuedMessage → String) (l : List QueuedMessage)
    (h : ∀ m ∈ l, p (ser m) = some m) : parseAll p (l.map ser) = some l := by
  induction l with
  | nil => rfl
  | cons m ms ih =>
    rw [List.map_cons, parseAll, h m (List.mem_cons_self m ms),
      ih (fun x hx => h x (List.mem_cons_of_mem m hx))]

theorem parseAll_none_of_mem (p : String → Option QueuedMessage)
    (ls : List String) (l : String) (hl : l ∈ ls) (hp : p l = none) :
    parseAll p ls = none := by
  induction ls with
  | nil => simp at hl
  | cons a tl ih =>
    rw [parseAll]
    rcases List.mem_cons.mp hl with rfl | hl
    · rw [hp]
    · rw [ih hl]
      cases p a <;> rfl

theorem filter_map_comm (ser : QueuedMessage → String)
    (cond : String → Bool) (f : QueuedMessage → Bool)
    (l : List QueuedMessage) (h : ∀ m ∈ l, cond (ser m) = f m) :
    (l.map ser).filter cond = (l.filter f).map ser := by
  induction l with
  | nil => rfl
  | cons m ms ih =>
    have hm := h m (List.mem_cons_self m ms)
    have ihm := ih (fun x hx => h x (List.mem_cons_of_mem m hx))
    rw [List.map_cons, List.filter_cons, List.filter_cons, hm]
    cases f m <;> simp [ihm]

theorem enqueueAll_eq (ser : QueuedMessage → String)
    (msgs : List QueuedMessage) :
    ∀ content, enqueueAll ser content msgs
      = content ++ termJoinNl (msgs.map ser) := by
  induction msgs with
  | nil => intro content; simp [enqueueAll, termJoinNl, str_append_empty]
  | cons m ms ih =>
    intro content
    show enqueueAll ser (queueMessage ser content m) ms = _
    rw [ih, queueMessage, List.map_cons, termJoinNl, str_append_assoc,
      str_append_assoc]

/-! ## Lemmas about `jsFindIndex` -/

theorem jsFindIndex_lt_length {p : α → Bool} :
    ∀ {l : List α} {i : Nat}, jsFindIndex p l = some i → i < l.length := by
  intro l
  induction l with
  | nil => intro i h; simp [jsFindIndex] at h
  | cons a tl ih =>
    intro i h
    rw [jsFindIndex] at h
    by_cases ha : p a = true
    · rw [if_pos ha] at h
      cases h
      simp
    · rw [if_neg ha] at h
      rcases Option.map_eq_some'.mp h with ⟨j, hj, rfl⟩
      have := ih hj
      simp only [List.length_cons]
      omega

theorem jsFindIndex_take_append {p : α → Bool} :
    ∀ {l : List α} {i : Nat}, jsFindIndex p l = some i →
      ∀ ys, jsFindIndex p (l.take (i + 1) ++ ys) = some i := by
  intro l
  induction l with
  | nil => intro i h; simp [jsFindIndex] at h
  | cons a tl ih =>
    intro i h ys
    rw [jsFindIndex] at h
    by_cases ha : p a = true
    · rw [if_pos ha] at h
      cases h
      simp [jsFindIndex, ha]
    · rw [if_neg ha] at h
      rcases Option.map_eq_some'.mp h with ⟨j, hj, rfl⟩
      rw [List.take_succ_cons, List.cons_append, jsFindIndex, if_neg ha,
        ih hj ys]
      rfl

/-! ## Claim theorems -/

theorem strLength_data (s : String) : s.length = s.data.length := rfl

/-- C9: `loadIdCache` and `loadContextCache` never fail: a missing file or a
file whose content makes `JSON.parse` throw yields the empty document. -/
theorem load_corruption_tolerant {α : Type}
    (pId : String → Option IdCache)
    (pCtx : String → Option (ContextCache α)) :
    loadIdCache pId none = {}
    ∧ loadContextCache pCtx none = {}
    ∧ (∀ content, pId content = none → loadIdCache pId (some content) = {})
    ∧ (∀ content, pCtx content = none →
        loadContextCache pCtx (some content) = {}) := by
  refine ⟨rfl, rfl, ?_, ?_⟩ <;> intro content h <;>
    simp [loadIdCache, loadContextCache, h]

/-- Witness for C9: loading arbitrary non-JSON bytes returns the empty
document. -/
theorem load_corruption_tolerant_witness :
    loadIdCache (fun _ => none) (some "this is not JSON") = {}
    ∧ loadContextCache (fun _ => (none : Option (ContextCache Nat)))
        (some "this is not JSON") = {} :=
  ⟨(load_corruption_tolerant (fun _ => none)
      (fun _ => (none : Option (ContextCache Nat)))).2.2.1
      "this is not JSON" rfl,
   (load_corruption_tolerant (fun _ => none)
      (fun _ => (none : Option (ContextCache Nat)))).2.2.2
      "this is not JSON" rfl⟩

/-- C4: `getCachedUserContext` returns the stored data iff
`now - fetchedAt < ttl` (miss at exactly the TTL or later), and
`isContextCacheStale` is true iff no user-context section exists or its age
has reached or exceeded the TTL. -/
theorem userContext_ttl_boundary {α : Type} (now ttl : Int)
    (c : ContextCache α) :
    (∀ (d : α) (t : Int), c.userContext = some (d, t) →
      (getCachedUserContext now ttl c = some d ↔ now - t < ttl * 1000))
    ∧ (c.userContext = none → getCachedUserContext now ttl c = none)
    ∧ (isContextCacheStale now ttl c = true ↔
        (c.userContext = none
          ∨ ∃ d t, c.userContext = some (d, t) ∧ ttl * 1000 ≤ now - t)) := by
  refine ⟨?_, ?_, ?_⟩
  · intro d t h
    simp only [getCachedUserContext, h, getContextTTL]
    split_ifs with hif
    · simp [hif]
    · simp [hif]
  · intro h
    simp [getCachedUserContext, h]
  · cases hu : c.userContext with
    | none => simp [isContextCacheStale, hu]
    | some dt =>
      obtain ⟨d, t⟩ := dt
      simp only [isContextCacheStale, hu, getContextTTL, ge_iff_le,
        decide_eq_true_eq]
      constructor
      · intro hge
        exact Or.inr ⟨d, t, rfl, hge⟩
      · rintro (hnone | ⟨d1, t1, heq, hge⟩)
        · exact absurd hnone (by simp)
        · obtain ⟨rfl, rfl⟩ : d = d1 ∧ t = t1 := by
            have := Option.some.inj heq
            exact ⟨congrArg Prod.fst this, congrArg Prod.snd this⟩
          exact hge

/-- Witness for C4: with TTL 300 s, a hit at 299 999 ms and a miss at
300 001 ms. -/
theorem userContext_ttl_boundary_witness :
    getCachedUserContext 299999 300 cacheW = some 7
    ∧ getCachedUserContext 300001 300 cacheW ≠ some 7 := by
  constructor
  · exact ((userContext_ttl_boundary 299999 300 cacheW).1 7 0 rfl).mpr
      (by decide)
  · intro hcontra
    have h := ((userContext_ttl_boundary 300001 300 cacheW).1 7 0 rfl).mp
      hcontra
    exact absurd h (by decide)

theorem applyIncrements_shift {α : Type} :
    ∀ (k : Nat) (c : ContextCache α) (n : Int), c.messageCount = some n →
      (applyIncrements k c).messageCount = some (n + k)
      ∧ (applyIncrements k c).lastRefreshMessageCount
          = c.lastRefreshMessageCount := by
  intro k
  induction k with
  | zero =>
    intro c n h
    refine ⟨?_, rfl⟩
    simpa [applyIncrements] using h
  | succ k ih =>
    intro c n h
    have h1 : (incrementMessageCount c).1.messageCount = some (n + 1) := by
      simp [incrementMessageCount, h]
    obtain ⟨ha, hb⟩ := ih (incrementMessageCount c).1 (n + 1) h1
    refine ⟨?_, ?_⟩
    · show (applyIncrements k (incrementMessageCount c).1).messageCount = _
      rw [ha]
      congr 1
      push_cast
      ring
    · show (applyIncrements k (incrementMessageCount c).1).lastRefreshMessageCount = _
      rw [hb]
      simp [incrementMessageCount]

/-- C5: after `resetMessageCount` and `k` increments (no intervening
`markKnowledgeGraphRefreshed`), `shouldRefreshKnowledgeGraph` with
threshold `T` is true iff `k ≥ T`; in particular with `T = 50` it is true
after 50 increments and false after 49. -/
theorem messageThreshold_trigger {α : Type} (T : Int) (c : ContextCache α)
    (k : Nat) :
    (shouldRefreshKnowledgeGraph T (applyIncrements k (resetMessageCount c))
        = true ↔ T ≤ (k : Int))
    ∧ shouldRefreshKnowledgeGraph 50
        (applyIncrements 50 (resetMessageCount c)) = true
    ∧ shouldRefreshKnowledgeGraph 50
        (applyIncrements 49 (resetMessageCount c)) = false := by
  have base : ∀ (U : Int) (j : Nat),
      shouldRefreshKnowledgeGraph U (applyIncrements j (resetMessageCount c))
        = true ↔ U ≤ (j : Int) := by
    intro U j
    obtain ⟨h1, h2⟩ :=
      applyIncrements_shift j (resetMessageCount c) 0 (by simp [resetMessageCount])
    have h2z : (applyIncrements j (resetMessageCount c)).lastRefreshMessageCount
        = some 0 := by
      rw [h2]; simp [resetMessageCount]
    simp only [shouldRefreshKnowledgeGraph, h1, h2z, Option.getD_some,
      ge_iff_le, decide_eq_true_eq]
    omega
  refine ⟨base T k, ?_, ?_⟩
  · exact (base 50 50).mpr (by norm_num)
  · have h := base 50 49
    rw [← Bool.not_eq_true]
    rw [h]
    norm_num

theorem dedupGo_eq_spec :
    ∀ (l : List (String × List String)) (seen : List String),
      dedupGo l seen = dedupSpecGo l seen := by
  intro l
  induction l with
  | nil => intro seen; rfl
  | cons hd tl ih =>
    intro seen
    obtain ⟨orig, kws⟩ := hd
    have hpos : (0 : ℚ) < ((max kws.length 1 : Nat) : ℚ) := by
      have : 0 < max kws.length 1 := Nat.lt_of_lt_of_le Nat.zero_lt_one
        (le_max_right _ 1)
      exact_mod_cast this
    have hgen : ∀ o M : Nat, ((o : ℚ) < 1 / 2 * (M : ℚ)) ↔ 2 * o < M := by
      intro o M
      constructor
      · intro hlt
        have h2 : ((2 * o : Nat) : ℚ) < ((M : Nat) : ℚ) := by
          push_cast
          linarith
        exact_mod_cast h2
      · intro hlt
        have h2 : ((2 * o : Nat) : ℚ) < ((M : Nat) : ℚ) := by
          exact_mod_cast hlt
        push_cast at h2
        linarith
    have hcond :
        (((kws.filter (fun k => seen.contains k)).length : ℚ)
            / ((max kws.length 1 : Nat) : ℚ) < 1 / 2)
          ↔ 2 * (kws.filter (fun k => seen.contains k)).length
              < max kws.length 1 := by
      rw [div_lt_iff₀ hpos]
      exact hgen _ _
    by_cases hc : 2 * (kws.filter (fun k => seen.contains k)).length
        < max kws.length 1
    · simp only [dedupGo, dedupSpecGo]
      rw [if_pos hc, if_pos (hcond.mpr hc), ih]
    · simp only [dedupGo, dedupSpecGo]
      rw [if_neg hc, if_neg (fun hq => hc (hcond.mp hq)), ih]

/-- C8: `deduplicateFacts` implements the specified keep-iff-overlap-below-half
algorithm (stated with the exact rational ratio), returns lists of length at
most one unchanged, and on the three example facts keeps the first, drops the
second, keeps the third. -/
theorem deduplicateFacts_spec (facts : List String) :
    deduplicateFacts facts = dedupSpec facts
    ∧ (facts.length ≤ 1 → deduplicateFacts facts = facts)
    ∧ deduplicateFacts ["the quick brown fox", "the quick brown dog",
        "completely unrelated sentence"]
      = ["the quick brown fox", "completely unrelated sentence"] := by
  refine ⟨?_, ?_, by decide⟩
  · rw [deduplicateFacts, dedupSpec]
    by_cases h : facts.length ≤ 1 <;> simp [h, dedupGo_eq_spec]
  · intro h
    simp [deduplicateFacts, h]

/-- Witness for C8 at the empty list. -/
theorem deduplicateFacts_spec_witness :
    deduplicateFacts ([] : List String) = [] :=
  (deduplicateFacts_spec []).2.1 (by decide)

/-- C10: truncation respects the token estimate: the truncated text estimates
to at most `maxTokens`, and the text is returned unchanged exactly when it
already fits the budget. -/
theorem truncate_estimate_tokens (text : String) (maxTokens : Nat)
    (h : 1 ≤ maxTokens) :
    estimateTokens (truncateToTokens text maxTokens) ≤ maxTokens
    ∧ (truncateToTokens text maxTokens = text
        ↔ estimateTokens text ≤ maxTokens) := by
  by_cases hle : text.length ≤ maxTokens * 4
  · have htr : truncateToTokens text maxTokens = text := by
      simp [truncateToTokens, hle]
    refine ⟨?_, ?_⟩
    · rw [htr, estimateTokens]
      omega
    · rw [htr, estimateTokens]
      simp
      omega
  · have hlen : text.data.length = text.length := rfl
    have hslice : jsSliceList text.data 0 (((maxTokens * 4 : Nat) : Int) - 3)
        = text.data.take (maxTokens * 4 - 3) := by
      rw [jsSliceList]
      have h0 : jsIdx text.data.length 0 = 0 := by simp [jsIdx]
      have h1 : jsIdx text.data.length (((maxTokens * 4 : Nat) : Int) - 3)
          = maxTokens * 4 - 3 := by
        rw [jsIdx, if_neg (by omega)]
        omega
      rw [h0, h1, List.drop_zero]
    have hout : truncateToTokens text maxTokens
        = String.mk (text.data.take (maxTokens * 4 - 3)) ++ "..." := by
      rw [truncateToTokens]
      simp only [if_neg hle]
      rw [hslice]
    have hlenout : (truncateToTokens text maxTokens).length
        = maxTokens * 4 := by
      rw [hout, strLength_data, str_append_data, List.length_append,
        List.length_take]
      have hdots : ("..." : String).data.length = 3 := rfl
      omega
    refine ⟨?_, ?_⟩
    · rw [estimateTokens, hlenout]
      omega
    · constructor
      · intro heq
        exfalso
        have hl := congrArg String.length heq
        rw [hlenout] at hl
        omega
      · intro hest
        exfalso
        rw [estimateTokens] at hest
        omega

/-- Witness for C10 at a concrete 10-character text and budget 2. -/
theorem truncate_estimate_tokens_witness :
    estimateTokens (truncateToTokens "abcdefghij" 2) ≤ 2
    ∧ (truncateToTokens "abcdefghij" 2 = "abcdefghij"
        ↔ estimateTokens "abcdefghij" ≤ 2) :=
  truncate_estimate_tokens "abcdefghij" 2 (by decide)

/-- Helper shared by the queue claims: the selective delete rewrites the
queue file so that its non-blank lines are exactly the previous lines that
parse and whose `cwd` differs from the given one. -/
theorem markUploaded_splitLines (p : String → Option QueuedMessage)
    (content d : String) :
    ∃ out, markMessagesUploaded p (some content) (some d) = some out
      ∧ splitLines out
        = (splitLines content).filter (fun line =>
            match p line with
            | some msg => !(msg.cwd == d)
            | none => false) := by
  refine ⟨_, rfl, ?_⟩
  rw [joinSep_if_eq_termJoin]
  apply splitLines_termJoin
  intro l hl
  exact mem_splitLines content l (List.mem_of_mem_filter hl)

/-- C1 is false on the code: a queue line that fails to parse is physically
deleted by `markMessagesUploaded` (the per-line `catch` returns `false`, so
the filter drops it), not conservatively retained.  With a parse function
that fails on `CORRUPT`, the file `"CORRUPT\n"` is rewritten to `""`. -/
theorem markUploaded_drops_unparseable_cex :
    markMessagesUploaded (fun _ => none) (some "CORRUPT\n") (some "/a")
      = some ""
    ∧ "CORRUPT" ∈ splitLines "CORRUPT\n" := by
  constructor
  · decide
  · decide

/-- C1 (amended): `markMessagesUploaded(d)` keeps exactly the parseable
lines whose `cwd` differs from `d`; a line that fails to parse is deleted
(never kept), and a parse failure on one line does not abort processing of
the remaining lines — every other line is still considered individually. -/
theorem markUploaded_selective_delete (p : String → Option QueuedMessage)
    (content d : String) :
    ∃ out, markMessagesUploaded p (some content) (some d) = some out
      ∧ splitLines out
        = (splitLines content).filter (fun line =>
            match p line with
            | some msg => !(msg.cwd == d)
            | none => false)
      ∧ ∀ line ∈ splitLines content, p line = none →
          line ∉ splitLines out := by
  obtain ⟨out, h1, h2⟩ := markUploaded_splitLines p content d
  refine ⟨out, h1, h2, ?_⟩
  intro line _ hnone hmem
  rw [h2] at hmem
  have hcondtrue := (List.mem_filter.mp hmem).2
  simp [hnone] at hcondtrue

/-- Witness for C1 (amended): one good line for `/b` survives a selective
delete for `/a`. -/
theorem markUploaded_selective_delete_witness :
    ∃ out, markMessagesUploaded pToy (some "GOOD\n") (some "/a") = some out
      ∧ splitLines out = ["GOOD"] := by
  obtain ⟨out, h1, h2, _⟩ := markUploaded_selective_delete pToy "GOOD\n" "/a"
  exact ⟨out, h1, h2.trans (by decide)⟩

/-- C2 is false on the code: `getQueuedMessages` maps `JSON.parse` over all
lines inside one `try`, so a single malformed line makes the whole read
return `[]` — the well-formed pending message on the other line is NOT
returned. -/
theorem getQueued_parse_failure_fatal_cex :
    pToy "BAD" = none
    ∧ pToy "GOOD" = some msgB
    ∧ msgB.uploaded = false
    ∧ getQueuedMessages pToy (some "GOOD\nBAD\n") none = []
    ∧ getQueuedMessages pToy (some "GOOD\n") none = [msgB] := by
  refine ⟨by decide, by decide, rfl, by decide, by decide⟩

/-- C2 (amended): `getQueuedMessages` parses each non-blank line, but a
parse failure on any line is fatal to the whole read: the result is `[]`
(the failure is swallowed, never thrown).  When every line parses, it
returns the messages with `uploaded = false` in file order, optionally
filtered to the given working directory. -/
theorem getQueued_characterization (p : String → Option QueuedMessage)
    (content : String) :
    ((∃ line ∈ splitLines content, p line = none) →
        ∀ forCwd, getQueuedMessages p (some content) forCwd = [])
    ∧ (∀ msgs, parseAll p (splitLines content) = some msgs →
        getQueuedMessages p (some content) none
            = msgs.filter (fun m => !m.uploaded)
        ∧ ∀ d, getQueuedMessages p (some content) (some d)
            = (msgs.filter (fun m => !m.uploaded)).filter
                (fun m => m.cwd == d)) := by
  constructor
  · rintro ⟨line, hline, hnone⟩ forCwd
    have hfail : parseAll p (splitLines content) = none :=
      parseAll_none_of_mem p _ line hline hnone
    cases forCwd <;> simp [getQueuedMessages, hfail]
  · intro msgs hmsgs
    constructor
    · simp [getQueuedMessages, hmsgs]
    · intro d
      simp [getQueuedMessages, hmsgs]

/-- Witness for C2 (amended): both branches at a concrete file. -/
theorem getQueued_characterization_witness :
    getQueuedMessages pToy (some "GOOD\nBAD\n") none = []
    ∧ getQueuedMessages pToy (some "GOOD\nGOOD\n") none = [msgB, msgB] := by
  constructor
  · exact (getQueued_characterization pToy "GOOD\nBAD\n").1
      ⟨"BAD", by decide, by decide⟩ none
  · exact ((getQueued_characterization pToy "GOOD\nGOOD\n").2
      [msgB, msgB] (by decide)).1.trans (by decide)

/-- C3: enqueuing well-formed pending messages (serialised one per line),
then `markMessagesUploaded(d)`, leaves exactly the messages with
`cwd ≠ d`, in their original insertion order; `getQueuedMessages` returns
them all. -/
theorem queue_selective_delete (ser : QueuedMessage → String)
    (p : String → Option QueuedMessage) (msgs : List QueuedMessage)
    (d : String)
    (hser : ∀ m ∈ msgs, p (ser m) = some m ∧ noNewline (ser m) = true
        ∧ lineNonblank (ser m) = true)
    (hup : ∀ m ∈ msgs, m.uploaded = false) :
    ∃ out, markMessagesUploaded p (some (enqueueAll ser "" msgs)) (some d)
        = some out
      ∧ getQueuedMessages p (some out) none
        = msgs.filter (fun m => !(m.cwd == d)) := by
  have hcontent : enqueueAll ser "" msgs = termJoinNl (msgs.map ser) := by
    rw [enqueueAll_eq, str_empty_append]
  have hsplit1 : splitLines (enqueueAll ser "" msgs) = msgs.map ser := by
    rw [hcontent]
    apply splitLines_termJoin
    intro l hl
    rcases List.mem_map.mp hl with ⟨m, hm, rfl⟩
    exact ⟨(hser m hm).2.1, (hser m hm).2.2⟩
  have hfilter : (msgs.map ser).filter (fun line =>
      match p line with
      | some msg => !(msg.cwd == d)
      | none => false)
      = (msgs.filter (fun m => !(m.cwd == d))).map ser := by
    apply filter_map_comm
    intro m hm
    rw [(hser m hm).1]
  obtain ⟨out, hout, hsplitOut⟩ :=
    markUploaded_splitLines p (enqueueAll ser "" msgs) d
  rw [hsplit1, hfilter] at hsplitOut
  refine ⟨out, hout, ?_⟩
  have hparse : parseAll p (splitLines out)
      = some (msgs.filter (fun m => !(m.cwd == d))) := by
    rw [hsplitOut]
    apply parseAll_map_ser
    intro m hm
    exact (hser m (List.mem_of_mem_filter hm)).1
  have hupfilter : (msgs.filter (fun m => !(m.cwd == d))).filter
      (fun m => !m.uploaded) = msgs.filter (fun m => !(m.cwd == d)) := by
    apply List.filter_eq_self.mpr
    intro m hm
    simp [hup m (List.mem_of_mem_filter hm)]
  simp [getQueuedMessages, hparse, hupfilter]

/-- Witness for C3: three messages for `/a` and two for `/b`; after the
selective delete for `/a`, exactly the two `/b` messages remain, in order. -/
theorem queue_selective_delete_witness :
    ∃ out, markMessagesUploaded pC (some (enqueueAll serC "" msgsC))
        (some "/a") = some out
      ∧ getQueuedMessages pC (some out) none = [mB1, mB2] := by
  obtain ⟨out, h1, h2⟩ := queue_selective_delete serC pC msgsC "/a"
    (by decide) (by decide)
  exact ⟨out, h1, h2.trans (by decide)⟩

/-! ## C6: rendering modes -/

/-- C6 is false on the code: at the essential tier with `includeDialectic`
set, verbose mode emits the user dialectic while compressed mode does not —
the two modes do not select the same information, and in verbose mode the
dialectic is not restricted to the deepest tier. -/
theorem format_modes_differ_cex :
    cfgEss.tier ≠ ContextTier.deep
    ∧ cfgEss.includeDialectic = true
    ∧ ctx0.user.dialectic ∈ verboseSections ctx0 cfgEss
    ∧ ctx0.user.dialectic ∉ compressedSections ctx0 cfgEss := by
  refine ⟨by decide, rfl, by decide, by decide⟩

/-- C6 (amended): the compressed mode includes dialectic text only at the
deepest tier and only when explicitly requested, but the verbose mode
includes it at every tier whenever explicitly requested: the two modes do
not select the same information. -/
theorem dialectic_inclusion_modes (ctx : FullContext)
    (config : ContextConfig) :
    (compressedDialecticBlock ctx config ≠ [] →
        config.tier = ContextTier.deep ∧ config.includeDialectic = true)
    ∧ (config.tier = ContextTier.deep → config.includeDialectic = true →
        ctx.user.dialectic ≠ "" →
        ctx.user.dialectic ∈ compressedSections ctx config)
    ∧ (config.includeDialectic = true → ctx.user.dialectic ≠ "" →
        ctx.user.dialectic ∈ verboseSections ctx config) := by
  refine ⟨?_, ?_, ?_⟩
  · intro hne
    by_contra hcon
    exact hne (by rw [compressedDialecticBlock, if_neg hcon])
  · intro htier hincl hne
    have hblock : ctx.user.dialectic ∈ compressedDialecticBlock ctx config := by
      rw [compressedDialecticBlock, if_pos ⟨htier, hincl⟩]
      simp [hne]
    simp only [compressedSections, List.mem_append]
    tauto
  · intro hincl hne
    have hblock : ctx.user.dialectic
        ∈ buildVerboseUserContext ctx.user.name ctx.user.context
            (if config.includeDialectic = true then ctx.user.dialectic
              else "")
            (TIER_BUDGETS config.tier).userFacts
            (TIER_BUDGETS config.tier).userInsights := by
      simp only [hincl, if_true]
      simp [buildVerboseUserContext, hne]
    simp only [verboseSections, List.mem_append]
    tauto

/-- Witness for C6 (amended): at the deep tier both modes include the
dialectic. -/
theorem dialectic_inclusion_modes_witness :
    ctx0.user.dialectic ∈ compressedSections ctx0 cfgDeep
    ∧ ctx0.user.dialectic ∈ verboseSections ctx0 cfgDeep :=
  ⟨(dialectic_inclusion_modes ctx0 cfgDeep).2.1 rfl rfl (by decide),
   (dialectic_inclusion_modes ctx0 cfgDeep).2.2 rfl (by decide)⟩

/-! ## C7: work-log bound -/

theorem lineNonblank_append (a b : String) :
    lineNonblank (a ++ b) = (lineNonblank a || lineNonblank b) := by
  simp [lineNonblank, str_append_data, List.any_append]

theorem jsSliceFrom_subset (xs : List α) (n : Int) :
    jsSliceFrom xs n ⊆ xs := by
  intro a ha
  rw [jsSliceFrom, jsSliceList] at ha
  exact List.take_subset _ _ (List.drop_subset _ _ ha)

theorem strLines_joinSep (ls : List String) (hne : ls ≠ [])
    (h : ∀ l ∈ ls, noNewline l = true) :
    strLines (joinSep "\n" ls) = ls := by
  induction ls with
  | nil => exact absurd rfl hne
  | cons x tl ih =>
    cases tl with
    | nil => exact strLines_noNl x (h x (List.mem_cons_self x []))
    | cons y tl2 =>
      have hstep : joinSep "\n" (x :: y :: tl2)
          = x ++ "\n" ++ joinSep "\n" (y :: tl2) := rfl
      rw [hstep, strLines_append_nl,
        strLines_noNl x (h x (List.mem_cons_self x (y :: tl2))),
        ih (by simp) (fun l hl => h l (List.mem_cons_of_mem x hl))]
      rfl

/-- C7 is false on the code for `maxEntries = 1`: JavaScript
`slice(-(1 - 1))` is `slice(0)`, which keeps ALL prior activity lines, so
after an append the section holds more than one entry (three here). -/
theorem appendWork_maxEntries_one_cex :
    1 < (activityEntries (appendClawdWork 1 "t3" "three" workLogEx)).length := by
  decide

/-- C7 (amended, `maxEntries ≥ 2`): appending to an existing work-log text
containing the literal header keeps the `slice(-(maxEntries-1))` most
recent prior entries and appends the new timestamped entry at the end
(oldest dropped first, chronological order), the section afterwards holds
at most `maxEntries` entries, and every line up to and including the header
line is preserved verbatim. -/
theorem appendWork_bound (maxEntries : Int) (ts desc existing : String)
    (i : Nat) (hN : 2 ≤ maxEntries) (hex : existing ≠ "")
    (hts : noNewline ts = true) (hdesc : noNewline desc = true)
    (hidx : jsFindIndex (fun l => containsSub l recentActivityHeader)
        (strLines existing) = some i) :
    activityEntries (appendClawdWork maxEntries ts desc existing)
      = jsSliceFrom (activityEntries existing) (-(maxEntries - 1))
          ++ ["- [" ++ ts ++ "] " ++ desc]
    ∧ ((activityEntries (appendClawdWork maxEntries ts desc existing)).length
        : Int) ≤ maxEntries
    ∧ (strLines (appendClawdWork maxEntries ts desc existing)).take (i + 1)
      = (strLines existing).take (i + 1) := by
  set lines := strLines existing with hlines
  set header := lines.take (i + 1) with hheader
  set activities := (lines.drop (i + 1)).filter lineNonblank with hacts
  set recent := jsSliceFrom activities (-(maxEntries - 1)) with hrecent
  set entryLine := "- [" ++ ts ++ "] " ++ desc with hentryLine
  have happ : appendClawdWork maxEntries ts desc existing
      = joinSep "\n" (header ++ recent)
          ++ ("\n- [" ++ ts ++ "] " ++ desc) := by
    simp only [appendClawdWork]
    rw [if_neg hex, ← hlines, hidx]
  have hentry : ("\n- [" ++ ts ++ "] " ++ desc) = "\n" ++ entryLine := by
    apply strExt
    simp [hentryLine, str_append_data]
  have hNoNlEntry : noNewline entryLine = true := by
    have h1 : noNewline "- [" = true := by decide
    have h2 : noNewline "] " = true := by decide
    simp [hentryLine, noNewline_append, h1, h2, hts, hdesc]
  have hNonblankEntry : lineNonblank entryLine = true := by
    have h1 : lineNonblank "- [" = true := by decide
    simp [hentryLine, lineNonblank_append, h1]
  have hlinesNoNl : ∀ l ∈ lines, noNewline l = true :=
    mem_strLines_noNewline existing
  have hhrNoNl : ∀ l ∈ header ++ recent, noNewline l = true := by
    intro l hl
    rcases List.mem_append.mp hl with h | h
    · exact hlinesNoNl l (List.take_subset _ _ h)
    · have h1 : l ∈ activities := jsSliceFrom_subset _ _ h
      exact hlinesNoNl l
        (List.drop_subset _ _ (List.mem_of_mem_filter h1))
  have hlt : i < lines.length := jsFindIndex_lt_length hidx
  have hheader_len : header.length = i + 1 := by
    rw [hheader, List.length_take]
    omega
  have hhr_ne : header ++ recent ≠ [] := by
    apply List.ne_nil_of_length_pos
    rw [List.length_append, hheader_len]
    omega
  have houtlines : strLines (appendClawdWork maxEntries ts desc existing)
      = (header ++ recent) ++ [entryLine] := by
    rw [happ, hentry, ← str_append_assoc, strLines_append_nl,
      strLines_joinSep _ hhr_ne hhrNoNl, strLines_noNl _ hNoNlEntry]
  have hfind2 : jsFindIndex (fun l => containsSub l recentActivityHeader)
      ((header ++ recent) ++ [entryLine]) = some i := by
    rw [List.append_assoc]
    exact jsFindIndex_take_append hidx (recent ++ [entryLine])
  have hact : activityEntries (appendClawdWork maxEntries ts desc existing)
      = recent ++ [entryLine] := by
    simp only [activityEntries]
    rw [houtlines, hfind2]
    show List.filter lineNonblank
        (List.drop (i + 1) (header ++ recent ++ [entryLine]))
      = recent ++ [entryLine]
    rw [List.append_assoc, ← hheader_len, List.drop_left]
    rw [List.filter_append]
    have hrec : recent.filter lineNonblank = recent := by
      apply List.filter_eq_self.mpr
      intro l hl
      exact List.of_mem_filter (jsSliceFrom_subset _ _ hl)
    have hent : [entryLine].filter lineNonblank = [entryLine] := by
      simp [hNonblankEntry]
    rw [hrec, hent]
  have hactex : activityEntries existing = activities := by
    simp only [activityEntries]
    rw [← hlines, hidx]
  have hreclen : (recent.length : Int) ≤ maxEntries - 1 := by
    have hstart : jsIdx activities.length (-(maxEntries - 1))
        = ((activities.length : Int) - (maxEntries - 1)).toNat := by
      rw [jsIdx, if_pos (by omega)]
      congr 1
    have hstop : jsIdx activities.length ((activities.length : Nat) : Int)
        = activities.length := by
      rw [jsIdx, if_neg (by omega)]
      omega
    rw [hrecent, jsSliceFrom, jsSliceList, hstop, hstart, List.take_length,
      List.length_drop]
    omega
  refine ⟨?_, ?_, ?_⟩
  · rw [hact, hactex]
  · rw [hact, List.length_append]
    push_cast
    simp only [List.length_cons, List.length_nil]
    omega
  · rw [houtlines, List.append_assoc, ← hheader_len, List.take_left]

/-- Witness for C7 (amended): `maxEntries = 5` on a log with two prior
entries keeps both and appends the new entry. -/
theorem appendWork_bound_witness :
    activityEntries (appendClawdWork 5 "t3" "three" workLogEx)
      = jsSliceFrom (activityEntries workLogEx) (-(5 - 1))
          ++ ["- [" ++ "t3" ++ "] " ++ "three"]
    ∧ ((activityEntries (appendClawdWork 5 "t3" "three" workLogEx)).length
        : Int) ≤ 5
    ∧ (strLines (appendClawdWork 5 "t3" "three" workLogEx)).take (0 + 1)
      = (strLines workLogEx).take (0 + 1) :=
  appendWork_bound 5 "t3" "three" workLogEx 0 (by decide) (by decide)
    (by decide) (by decide) (by decide)

end HonchoClawd
